import Mathlib

/-!
Shallow embedding of `generate_language_stats.py`.

The Python dictionaries are embedded as insertion-ordered association
lists (`List (String × Nat)` and so on), matching Python's guaranteed
dict iteration order.  Network requests are abstracted as oracles: a
list of page responses for the repository listing and a per-repository
response function for the language breakdown, each response either a
payload or a transport error.  Percentages, computed with `/` and `*`
on floats in the source, are embedded in exact rational arithmetic `ℚ`.
The SVG file write is embedded as the returned document value.
-/

namespace LangStats

/-- Static language → hex color table, from `LANGUAGE_COLORS` in the source. -/
def LANGUAGE_COLORS : List (String × String) :=
  [("Python", "#3572A5"),
   ("JavaScript", "#f1e05a"),
   ("TypeScript", "#2b7489"),
   ("Java", "#b07219"),
   ("C", "#555555"),
   ("C++", "#f34b7d"),
   ("C#", "#178600"),
   ("PHP", "#4F5D95"),
   ("Ruby", "#701516"),
   ("Go", "#00ADD8"),
   ("Rust", "#dea584"),
   ("Swift", "#ffac45"),
   ("Kotlin", "#F18E33"),
   ("Dart", "#00B4AB"),
   ("Shell", "#89e051"),
   ("HTML", "#e34c26"),
   ("CSS", "#563d7c"),
   ("Vue", "#41b883"),
   ("Jupyter Notebook", "#DA5B0B"),
   ("R", "#198CE7"),
   ("Scala", "#c22d40"),
   ("Perl", "#0298c3"),
   ("Haskell", "#5e5086"),
   ("Lua", "#000080"),
   ("Objective-C", "#438eff"),
   ("MATLAB", "#e16737")]

/-- Default bar color for languages absent from the table (`DEFAULT_COLOR`). -/
def DEFAULT_COLOR : String := "#858585"

/-- Color lookup used per entry in `generate_svg`:
`LANGUAGE_COLORS.get(language, DEFAULT_COLOR)`. -/
def colorFor (language : String) : String :=
  (LANGUAGE_COLORS.lookup language).getD DEFAULT_COLOR

/-- A fetched repository record.  Fields the script reads are `fork`,
`languages_url` and `name`; each is `Option`al because the JSON object
may lack it (the source reads them with `dict.get`). -/
structure Repo where
  name : Option String
  fork : Option Bool
  languages_url : Option String
deriving DecidableEq, Repr

/-- The fork filter from line 83 of the source:
`not repo.get('fork', False)`. -/
def keepRepo (repo : Repo) : Bool :=
  ! (repo.fork.getD false)

/-- A transport-level response: either a payload or a request error
(the error text is irrelevant to the model). -/
abbrev Resp (α : Type) := Except String α

/-- The pagination loop of `fetch_repositories`: pages are requested in
order; a transport error stops the loop keeping what was accumulated, an
empty page stops the loop, and a non-empty page is filtered by
`keepRepo` and appended.  The response list models the successive page
responses; exhausting it models the server returning an empty page. -/
def fetch_repositories : List (Resp (List Repo)) → List Repo
  | [] => []
  | Except.error _ :: _ => []
  | Except.ok page :: rest =>
    if page.isEmpty then []
    else page.filter keepRepo ++ fetch_repositories rest

/-- Update of the `defaultdict(int)` accumulator:
`language_bytes[language] += bytes_count`, preserving Python dict
insertion order (existing key updated in place, new key appended). -/
def addBytes (acc : List (String × Nat)) (language : String) (bytes_count : Nat) :
    List (String × Nat) :=
  match acc with
  | [] => [(language, bytes_count)]
  | (k, v) :: rest =>
    if k = language then (k, v + bytes_count) :: rest
    else (k, v) :: addBytes rest language bytes_count

/-- The aggregation loop of `fetch_language_stats`: for each repository
with a non-empty `languages_url`, the language breakdown is fetched (one
oracle call); a transport error skips that repository; otherwise each
(language, bytes) pair is added into the accumulator. -/
def fetch_language_stats (repos : List Repo)
    (oracle : Repo → Resp (List (String × Nat))) : List (String × Nat) :=
  repos.foldl
    (fun acc repo =>
      if repo.languages_url.getD "" = "" then acc
      else
        match oracle repo with
        | Except.error _ => acc
        | Except.ok languages =>
          languages.foldl (fun a p => addBytes a p.1 p.2) acc)
    []

/-- Stable descending insertion: `x` is placed before the first element
whose byte count is ≤ its own, so equal counts keep their original
relative order.  This is the effect of Python's stable
`sorted(..., key=lambda x: x[1], reverse=True)`. -/
def insertDesc (x : String × Nat) : List (String × Nat) → List (String × Nat)
  | [] => [x]
  | y :: ys => if y.2 ≤ x.2 then x :: y :: ys else y :: insertDesc x ys

/-- Stable sort by byte count descending, embedding line 133 of the
source (`sorted_languages`). -/
def sortDesc : List (String × Nat) → List (String × Nat)
  | [] => []
  | x :: xs => insertDesc x (sortDesc xs)

/-- Grand total of byte counts, `sum(language_bytes.values())`. -/
def total_bytes (language_bytes : List (String × Nat)) : Nat :=
  (language_bytes.map Prod.snd).sum

/-- Percentage of one entry: `(bytes_count / total_bytes) * 100`,
in exact rational arithmetic. -/
def pct (bytes_count total : Nat) : ℚ :=
  ((bytes_count : ℚ) / (total : ℚ)) * 100

/-- Embedding of `get_top_languages`: empty or zero-total map yields the
empty list; otherwise the map is stably sorted by byte count descending,
truncated to the first `top_n`, and each entry is paired with its
percentage of the grand total. -/
def get_top_languages (language_bytes : List (String × Nat)) (top_n : Nat) :
    List (String × Nat × ℚ) :=
  if language_bytes.isEmpty then []
  else if total_bytes language_bytes = 0 then []
  else
    ((sortDesc language_bytes).take top_n).map
      (fun p => (p.1, p.2, pct p.2 (total_bytes language_bytes)))

/-- Renderer layout constant `bar_height = 20`. -/
def bar_height : Int := 20

/-- Renderer layout constant `bar_spacing = 15`. -/
def bar_spacing : Int := 15

/-- Renderer layout constant `padding = 20`. -/
def padding : Int := 20

/-- Renderer layout constant `width = 450`. -/
def svg_width : Int := 450

/-- Renderer layout constant `header_height = 40`. -/
def header_height : Int := 40

/-- Track x origin inside each row, `bar_x = 150`. -/
def bar_x : Int := 150

/-- Track rectangle width, `bar_width = width - bar_x - padding - 60`. -/
def bar_width : Int := svg_width - bar_x - padding - 60

/-- Filled rectangle width for one entry,
`fill_width = (percentage / 100) * bar_width`. -/
def fill_width (percentage : ℚ) : ℚ :=
  (percentage / 100) * (bar_width : ℚ)

/-- Image height of the non-empty chart as a function of the entry
count: `header_height + (n * (bar_height + bar_spacing) - bar_spacing)
+ padding * 2`. -/
def svg_height (n : Int) : Int :=
  header_height + (n * (bar_height + bar_spacing) - bar_spacing) + padding * 2

/-- One rendered row of the chart: the drawing attributes the non-empty
branch of `generate_svg` emits for one ranked entry (label, track
rectangle, filled rectangle, percentage). -/
structure BarRow where
  language : String
  color : String
  y_offset : Int
  track_x : Int
  track_width : Int
  filled_width : ℚ
  percentage : ℚ
deriving DecidableEq, Repr

/-- The per-entry loop of `generate_svg` (lines 178-209): each entry
produces a row at the running `y_offset`, which then advances by
`bar_height + bar_spacing`. -/
def buildRows : List (String × Nat × ℚ) → Int → List BarRow
  | [], _ => []
  | (language, _, percentage) :: rest, y_offset =>
    { language := language
      color := colorFor language
      y_offset := y_offset
      track_x := bar_x
      track_width := bar_width
      filled_width := fill_width percentage
      percentage := percentage } ::
      buildRows rest (y_offset + bar_height + bar_spacing)

/-- The exact placeholder document `generate_svg` writes for an empty
ranked list (lines 149-154 of the source). -/
def emptySvgContent : String :=
  "<svg xmlns=\"http://www.w3.org/2000/svg\" width=\"400\" height=\"100\" viewBox=\"0 0 400 100\">\n  <rect width=\"400\" height=\"100\" fill=\"#0d1117\" rx=\"4\"/>\n  <text x=\"200\" y=\"50\" font-family=\"Arial, sans-serif\" font-size=\"16\" fill=\"#c9d1d9\" text-anchor=\"middle\" dominant-baseline=\"middle\">\n    No languages found\n  </text>\n</svg>"

/-- The written SVG document: either the fixed placeholder text, or a
chart of given width, height and rows.  (Text serialization of the
chart rows is not modelled; the claims are about the placeholder text
and the chart's numeric and color attributes.) -/
inductive SvgOutput where
  | placeholder (content : String)
  | chart (w h : Int) (rows : List BarRow)
deriving DecidableEq, Repr

/-- Rows of a document (empty for the placeholder). -/
def SvgOutput.rows : SvgOutput → List BarRow
  | .placeholder _ => []
  | .chart _ _ r => r

/-- Height attribute of a document (the placeholder is 100 high). -/
def SvgOutput.height : SvgOutput → Int
  | .placeholder _ => 100
  | .chart _ h _ => h

/-- Embedding of `generate_svg`: an empty ranked list yields the fixed
placeholder; otherwise a chart of computed height whose rows start at
`header_height + padding`. -/
def generate_svg (top_languages : List (String × Nat × ℚ)) : SvgOutput :=
  if top_languages.isEmpty then
    SvgOutput.placeholder emptySvgContent
  else
    SvgOutput.chart svg_width (svg_height top_languages.length)
      (buildRows top_languages (header_height + padding))

/-- Embedding of `main` (lines 221-249): fetch repositories; if none,
write the empty SVG and return 0; otherwise aggregate, rank with
`top_n = 6`, write the chart, and return 0.  The returned pair is
(exit status, written document). -/
def main (repoPages : List (Resp (List Repo)))
    (langOracle : Repo → Resp (List (String × Nat))) : Int × SvgOutput :=
  let repos := fetch_repositories repoPages
  if repos.isEmpty then (0, generate_svg [])
  else
    let language_bytes := fetch_language_stats repos langOracle
    let top_languages := get_top_languages language_bytes 6
    (0, generate_svg top_languages)

/-! Helper lemmas about the stable descending sort. -/

lemma isEmpty_eq_false_of_ne_nil {α : Type} (l : List α) (h : l ≠ []) :
    l.isEmpty = false := by
  cases l with
  | nil => exact absurd rfl h
  | cons a l => rfl

lemma insertDesc_perm (x : String × Nat) (l : List (String × Nat)) :
    (insertDesc x l).Perm (x :: l) := by
  induction l with
  | nil => exact List.Perm.refl _
  | cons y ys ih =>
    unfold insertDesc
    split
    · exact List.Perm.refl _
    · exact (List.Perm.cons y ih).trans (List.Perm.swap x y ys)

lemma sortDesc_perm (l : List (String × Nat)) : (sortDesc l).Perm l := by
  induction l with
  | nil => exact List.Perm.refl _
  | cons x xs ih =>
    exact (insertDesc_perm x (sortDesc xs)).trans (List.Perm.cons x ih)

lemma insertDesc_pairwise (x : String × Nat) (l : List (String × Nat))
    (h : l.Pairwise (fun a b => b.2 ≤ a.2)) :
    (insertDesc x l).Pairwise (fun a b => b.2 ≤ a.2) := by
  induction l with
  | nil => simp [insertDesc]
  | cons y ys ih =>
    unfold insertDesc
    split
    case isTrue hyx =>
      refine List.Pairwise.cons ?_ h
      intro z hz
      rcases List.mem_cons.mp hz with hzy | hzys
      · exact hzy ▸ hyx
      · exact le_trans (List.rel_of_pairwise_cons h hzys) hyx
    case isFalse hyx =>
      refine List.Pairwise.cons ?_ (ih (List.Pairwise.of_cons h))
      intro z hz
      rcases List.mem_cons.mp ((insertDesc_perm x ys).mem_iff.mp hz) with hzx | hzys
      · exact hzx ▸ le_of_not_le hyx
      · exact List.rel_of_pairwise_cons h hzys

lemma sortDesc_pairwise (l : List (String × Nat)) :
    (sortDesc l).Pairwise (fun a b => b.2 ≤ a.2) := by
  induction l with
  | nil => simp [sortDesc]
  | cons x xs ih => exact insertDesc_pairwise x (sortDesc xs) ih

lemma filter_insertDesc (x : String × Nat) (k : Nat) (l : List (String × Nat)) :
    (insertDesc x l).filter (fun p => p.2 == k) =
      if x.2 == k then x :: l.filter (fun p => p.2 == k)
      else l.filter (fun p => p.2 == k) := by
  induction l with
  | nil =>
    cases h : x.2 == k <;> simp [insertDesc, List.filter, h]
  | cons y ys ih =>
    unfold insertDesc
    split
    case isTrue hyx => simp [List.filter_cons]
    case isFalse hyx =>
      by_cases hx : x.2 = k
      · have hy : ¬ y.2 = k := by omega
        simp [List.filter_cons, ih, hx, hy]
      · simp [List.filter_cons, ih, hx]

lemma sortDesc_filter (l : List (String × Nat)) (k : Nat) :
    (sortDesc l).filter (fun p => p.2 == k) = l.filter (fun p => p.2 == k) := by
  induction l with
  | nil => rfl
  | cons x xs ih =>
    show (insertDesc x (sortDesc xs)).filter (fun p => p.2 == k) = _
    rw [filter_insertDesc, ih, List.filter_cons]

lemma get_top_eq (m : List (String × Nat)) (N : Nat) (hne : m ≠ [])
    (hpos : total_bytes m ≠ 0) :
    get_top_languages m N =
      ((sortDesc m).take N).map (fun p => (p.1, p.2, pct p.2 (total_bytes m))) := by
  unfold get_top_languages
  rw [isEmpty_eq_false_of_ne_nil m hne]
  simp [hpos]

lemma buildRows_mem (top : List (String × Nat × ℚ)) (y : Int) (row : BarRow)
    (h : row ∈ buildRows top y) :
    row.color = colorFor row.language ∧ row.track_x = bar_x ∧
      row.track_width = bar_width ∧ row.filled_width = fill_width row.percentage := by
  induction top generalizing y with
  | nil => simp [buildRows] at h
  | cons t rest ih =>
    obtain ⟨language, bytes, percentage⟩ := t
    simp only [buildRows, List.mem_cons] at h
    rcases h with h | h
    · subst h
      exact ⟨rfl, rfl, rfl, rfl⟩
    · exact ih _ h

lemma lookup_eq_none_of_not_mem (al : List (String × String)) (key : String)
    (h : key ∉ al.map Prod.fst) : al.lookup key = none := by
  induction al with
  | nil => rfl
  | cons p rest ih =>
    simp only [List.map_cons, List.mem_cons] at h
    push_neg at h
    obtain ⟨h1, h2⟩ := h
    have hb : (key == p.1) = false := beq_eq_false_iff_ne.mpr h1
    simp [List.lookup, hb, ih h2]

lemma generate_svg_height (top : List (String × Nat × ℚ)) (h : top ≠ []) :
    (generate_svg top).height = svg_height top.length := by
  have hemp := isEmpty_eq_false_of_ne_nil top h
  simp [generate_svg, hemp, SvgOutput.height]

lemma sum_map_pct (T : Nat) (l : List (String × Nat)) :
    (l.map (fun p => pct p.2 T)).sum = ((total_bytes l : ℚ) / (T : ℚ)) * 100 := by
  induction l with
  | nil => simp [total_bytes]
  | cons x xs ih =>
    rw [List.map_cons, List.sum_cons, ih]
    show pct x.2 T + _ = _
    unfold pct total_bytes
    rw [List.map_cons, List.sum_cons]
    push_cast
    ring

/-! Claim theorems. -/

/-- C3: an empty byte map, or one whose values sum to zero, yields the
empty ranked list, and the empty ranked list makes `generate_svg` write
exactly the fixed 400x100 placeholder document. -/
theorem empty_input_placeholder (m : List (String × Nat)) (N : Nat)
    (h : m = [] ∨ total_bytes m = 0) :
    get_top_languages m N = [] ∧
      generate_svg [] = SvgOutput.placeholder emptySvgContent := by
  refine ⟨?_, rfl⟩
  rcases h with h | h
  · subst h; rfl
  · unfold get_top_languages
    by_cases hm : m.isEmpty <;> simp [hm, h]

/-- C3 witness: a concrete all-zero byte map yields the empty ranked
list and the placeholder document. -/
theorem empty_input_placeholder_witness :
    (([("Python", 0)] : List (String × Nat)) = [] ∨
        total_bytes [("Python", 0)] = 0) ∧
      (get_top_languages [("Python", 0)] 6 = [] ∧
        generate_svg [] = SvgOutput.placeholder emptySvgContent) :=
  ⟨Or.inr (by decide), empty_input_placeholder [("Python", 0)] 6 (Or.inr (by decide))⟩

/-- C4: no record retained by the pagination loop has its fork flag set,
for every sequence of page responses. -/
theorem fetch_repositories_excludes_forks
    (pages : List (Resp (List Repo))) (r : Repo)
    (h : r ∈ fetch_repositories pages) : r.fork ≠ some true := by
  induction pages with
  | nil => simp [fetch_repositories] at h
  | cons page rest ih =>
    cases page with
    | error e => simp [fetch_repositories] at h
    | ok repos =>
      by_cases hemp : repos.isEmpty
      · simp [fetch_repositories, hemp] at h
      · simp only [fetch_repositories, hemp, Bool.false_eq_true, if_false,
          List.mem_append, List.mem_filter] at h
        rcases h with ⟨hmem, hkeep⟩ | h
        · intro hfork
          unfold keepRepo at hkeep
          rw [hfork] at hkeep
          simp at hkeep
        · exact ih h

/-- C4 witness: a concrete one-page trace containing a fork-flagged and
a non-fork record; the retained record is not fork-flagged. -/
theorem fetch_repositories_excludes_forks_witness :
    ((⟨some "a", some false, some "u"⟩ : Repo) ∈
        fetch_repositories
          [Except.ok [⟨some "a", some false, some "u"⟩,
                      ⟨some "b", some true, some "v"⟩]]) ∧
      (⟨some "a", some false, some "u"⟩ : Repo).fork ≠ some true :=
  ⟨by decide,
   fetch_repositories_excludes_forks
     [Except.ok [⟨some "a", some false, some "u"⟩,
                 ⟨some "b", some true, some "v"⟩]]
     ⟨some "a", some false, some "u"⟩ (by decide)⟩

/-- C5: `main` returns exit status 0 for every repository-page trace and
every language-breakdown oracle, i.e. regardless of which network
requests fail. -/
theorem main_exit_zero (pages : List (Resp (List Repo)))
    (oracle : Repo → Resp (List (String × Nat))) :
    (main pages oracle).1 = 0 := by
  unfold main
  by_cases h : (fetch_repositories pages).isEmpty <;> simp [h]

/-- C8: the fork filter keeps a record exactly when its fork field is
absent or false, and a record with the field absent that appears on a
non-empty page is retained by the pagination loop. -/
theorem missing_fork_field_retained :
    (∀ r : Repo, keepRepo r = true ↔ (r.fork = none ∨ r.fork = some false)) ∧
    (∀ (r : Repo) (page : List Repo) (rest : List (Resp (List Repo))),
      r ∈ page → r.fork = none →
      r ∈ fetch_repositories (Except.ok page :: rest)) := by
  constructor
  · intro r
    cases hf : r.fork with
    | none => simp [keepRepo, hf]
    | some b => cases b <;> simp [keepRepo, hf]
  · intro r page rest hmem hfork
    have hemp : page.isEmpty = false := by
      cases page with
      | nil => simp at hmem
      | cons a l => rfl
    have hkeep : keepRepo r = true := by simp [keepRepo, hfork]
    simp only [fetch_repositories, hemp, Bool.false_eq_true, if_false]
    exact List.mem_append_left _ (List.mem_filter.mpr ⟨hmem, hkeep⟩)

/-- C8 witness: a concrete record with no fork field is retained from a
concrete one-page trace. -/
theorem missing_fork_field_retained_witness :
    ((⟨some "r", none, some "u"⟩ : Repo) ∈ [(⟨some "r", none, some "u"⟩ : Repo)]) ∧
      (⟨some "r", none, some "u"⟩ : Repo).fork = none ∧
      (⟨some "r", none, some "u"⟩ : Repo) ∈
        fetch_repositories [Except.ok [⟨some "r", none, some "u"⟩]] :=
  ⟨by decide, by decide,
   missing_fork_field_retained.2 ⟨some "r", none, some "u"⟩
     [⟨some "r", none, some "u"⟩] [] (by decide) (by decide)⟩

/-- C1: for a non-empty map with positive total, `get_top_languages` is
the stable descending sort of the map truncated to the first N entries,
paired with percentages: the sort is a permutation of the map, its byte
counts are non-increasing, equal counts keep the map's original order
(the filter at each count value is unchanged), the result length is
`min N` (map size), and on a concrete 10-language map with N = 6 the
result is exactly the 6 largest counts. -/
theorem get_top_languages_sorted_stable_truncated
    (m : List (String × Nat)) (N : Nat) (hne : m ≠ []) (hpos : 0 < total_bytes m) :
    get_top_languages m N =
        ((sortDesc m).take N).map (fun p => (p.1, p.2, pct p.2 (total_bytes m))) ∧
      (sortDesc m).Perm m ∧
      (sortDesc m).Pairwise (fun a b => b.2 ≤ a.2) ∧
      (∀ k, (sortDesc m).filter (fun p => p.2 == k) = m.filter (fun p => p.2 == k)) ∧
      (get_top_languages m N).length = min N m.length ∧
      (get_top_languages
          [("L1", 10), ("L2", 20), ("L3", 30), ("L4", 40), ("L5", 50),
           ("L6", 60), ("L7", 70), ("L8", 80), ("L9", 90), ("L10", 100)] 6).map
          (fun t => t.2.1) = [100, 90, 80, 70, 60, 50] := by
  have htot := Nat.pos_iff_ne_zero.mp hpos
  refine ⟨get_top_eq m N hne htot, sortDesc_perm m, sortDesc_pairwise m,
    fun k => sortDesc_filter m k, ?_, by decide⟩
  rw [get_top_eq m N hne htot, List.length_map, List.length_take,
    (sortDesc_perm m).length_eq]

/-- C1 witness: the length law instantiated on a concrete two-language
map with N = 1. -/
theorem get_top_languages_sorted_stable_truncated_witness :
    (([("A", 2), ("B", 1)] : List (String × Nat)) ≠ []) ∧
      0 < total_bytes [("A", 2), ("B", 1)] ∧
      (get_top_languages [("A", 2), ("B", 1)] 1).length =
        min 1 ([("A", 2), ("B", 1)] : List (String × Nat)).length :=
  ⟨by simp, by decide,
   (get_top_languages_sorted_stable_truncated [("A", 2), ("B", 1)] 1
     (by simp) (by decide)).2.2.2.2.1⟩

/-- C2: whenever the total is positive and N covers the whole map, the
percentages of the ranked list sum to exactly 100 in exact rational
arithmetic. -/
theorem get_top_languages_percentages_sum_100
    (m : List (String × Nat)) (N : Nat)
    (hpos : 0 < total_bytes m) (hN : m.length ≤ N) :
    ((get_top_languages m N).map (fun t => t.2.2)).sum = 100 := by
  have hne : m ≠ [] := by
    intro h
    rw [h] at hpos
    simp [total_bytes] at hpos
  have htot : total_bytes m ≠ 0 := Nat.pos_iff_ne_zero.mp hpos
  rw [get_top_eq m N hne htot]
  have hlen : (sortDesc m).length = m.length := (sortDesc_perm m).length_eq
  rw [List.take_of_length_le (by rw [hlen]; exact hN), List.map_map]
  have hcomp :
      ((fun t : String × Nat × ℚ => t.2.2) ∘
        fun p : String × Nat => (p.1, p.2, pct p.2 (total_bytes m))) =
        fun p : String × Nat => pct p.2 (total_bytes m) := rfl
  rw [hcomp, sum_map_pct]
  have htb : total_bytes (sortDesc m) = total_bytes m := by
    unfold total_bytes
    exact ((sortDesc_perm m).map Prod.snd).sum_eq
  rw [htb, div_self (by exact_mod_cast htot)]
  norm_num

/-- C2 witness: on a concrete two-language map the percentages sum
to 100. -/
theorem get_top_languages_percentages_sum_100_witness :
    0 < total_bytes [("A", 1), ("B", 3)] ∧
      ([("A", 1), ("B", 3)] : List (String × Nat)).length ≤ 6 ∧
      ((get_top_languages [("A", 1), ("B", 3)] 6).map (fun t => t.2.2)).sum = 100 :=
  ⟨by decide, by decide,
   get_top_languages_percentages_sum_100 [("A", 1), ("B", 3)] 6
     (by decide) (by decide)⟩

/-- C9: a zero-count language within the first N positions of the
descending order appears in the ranked output with percentage 0, and a
concrete one-positive-one-zero map with N = 6 yields a two-entry list
whose last entry has percentage 0. -/
theorem zero_count_languages_kept
    (m : List (String × Nat)) (N : Nat) (p : String × Nat)
    (hpos : 0 < total_bytes m) (hp : p ∈ (sortDesc m).take N) (hz : p.2 = 0) :
    (p.1, 0, (0 : ℚ)) ∈ get_top_languages m N ∧
      get_top_languages [("A", 5), ("B", 0)] 6 =
        [("A", 5, (100 : ℚ)), ("B", 0, (0 : ℚ))] := by
  constructor
  · have hne : m ≠ [] := by
      intro h
      rw [h] at hpos
      simp [total_bytes] at hpos
    have htot : total_bytes m ≠ 0 := Nat.pos_iff_ne_zero.mp hpos
    rw [get_top_eq m N hne htot]
    have hmem : (p.1, p.2, pct p.2 (total_bytes m)) ∈
        (List.take N (sortDesc m)).map
          (fun q : String × Nat => (q.1, q.2, pct q.2 (total_bytes m))) :=
      List.mem_map_of_mem _ hp
    rw [hz] at hmem
    have hpct : pct 0 (total_bytes m) = 0 := by simp [pct]
    rw [hpct] at hmem
    exact hmem
  · show get_top_languages [("A", 5), ("B", 0)] 6 = _
    have h5 : pct 5 5 = 100 := by norm_num [pct]
    have h0 : pct 0 5 = 0 := by norm_num [pct]
    show ((sortDesc [("A", 5), ("B", 0)]).take 6).map
        (fun p => (p.1, p.2, pct p.2 5)) = _
    show [("A", 5, pct 5 5), ("B", 0, pct 0 5)] = _
    rw [h5, h0]

/-- C9 witness: the membership law instantiated on the concrete map
(["A" with 5 bytes, "B" with 0 bytes]). -/
theorem zero_count_languages_kept_witness :
    0 < total_bytes [("A", 5), ("B", 0)] ∧
      (("B", 0) ∈ (sortDesc [("A", 5), ("B", 0)]).take 6) ∧
      ("B", 0, (0 : ℚ)) ∈ get_top_languages [("A", 5), ("B", 0)] 6 :=
  ⟨by decide, by decide,
   (zero_count_languages_kept [("A", 5), ("B", 0)] 6 ("B", 0)
     (by decide) (by decide) rfl).1⟩

/-- C6: every rendered row's fill color is the `LANGUAGE_COLORS` value
at its exact language name with default `DEFAULT_COLOR`; "Python" maps
to "#3572A5", the default is "#858585", and any name absent from the
table gets the default. -/
theorem bar_color_lookup :
    (∀ (top : List (String × Nat × ℚ)) (row : BarRow),
        row ∈ (generate_svg top).rows →
        row.color = (LANGUAGE_COLORS.lookup row.language).getD DEFAULT_COLOR) ∧
      colorFor "Python" = "#3572A5" ∧
      DEFAULT_COLOR = "#858585" ∧
      (∀ language : String, language ∉ LANGUAGE_COLORS.map Prod.fst →
        colorFor language = "#858585") := by
  refine ⟨?_, by decide, rfl, ?_⟩
  · intro top row h
    cases htop : top.isEmpty
    case true =>
      simp [generate_svg, htop, SvgOutput.rows] at h
    case false =>
      simp only [generate_svg, htop, Bool.false_eq_true, if_false,
        SvgOutput.rows] at h
      exact (buildRows_mem top _ row h).1
  · intro language hmem
    unfold colorFor
    rw [lookup_eq_none_of_not_mem LANGUAGE_COLORS language hmem]
    rfl

/-- One concrete row of a one-entry chart for the color-lookup witness. -/
def pythonRow : BarRow :=
  { language := "Python"
    color := colorFor "Python"
    y_offset := header_height + padding
    track_x := bar_x
    track_width := bar_width
    filled_width := fill_width 100
    percentage := 100 }

/-- C6 witness: the row rendered for a concrete single-entry ranked list
carries the table color looked up at its language. -/
theorem bar_color_lookup_witness :
    pythonRow ∈ (generate_svg [("Python", 5, (100 : ℚ))]).rows ∧
      pythonRow.color = (LANGUAGE_COLORS.lookup pythonRow.language).getD DEFAULT_COLOR := by
  have hmem : pythonRow ∈ (generate_svg [("Python", 5, (100 : ℚ))]).rows := by
    show pythonRow ∈ pythonRow :: []
    exact List.mem_cons_self _ _
  exact ⟨hmem, bar_color_lookup.1 _ _ hmem⟩

/-- C7: the chart height is the affine function
`header_height + (n * (bar_height + bar_spacing) - bar_spacing) +
padding * 2` of the entry count n; one more entry adds exactly
`bar_height + bar_spacing`; and a 3-entry list is strictly shorter than
a 6-entry list by exactly 3 such steps (105). -/
theorem svg_height_affine :
    (∀ top : List (String × Nat × ℚ), top ≠ [] →
        (generate_svg top).height =
          header_height +
            ((top.length : Int) * (bar_height + bar_spacing) - bar_spacing) +
            padding * 2) ∧
      (∀ t1 t2 : List (String × Nat × ℚ), t1 ≠ [] → t2.length = t1.length + 1 →
        (generate_svg t2).height =
          (generate_svg t1).height + (bar_height + bar_spacing)) ∧
      (∀ t3 t6 : List (String × Nat × ℚ), t3.length = 3 → t6.length = 6 →
        (generate_svg t3).height < (generate_svg t6).height ∧
          (generate_svg t6).height = (generate_svg t3).height + 105) := by
  have hmain : ∀ top : List (String × Nat × ℚ), top ≠ [] →
      (generate_svg top).height =
        header_height +
          ((top.length : Int) * (bar_height + bar_spacing) - bar_spacing) +
          padding * 2 := by
    intro top h
    rw [generate_svg_height top h]
    rfl
  refine ⟨hmain, ?_, ?_⟩
  · intro t1 t2 h1 hlen
    have h2 : t2 ≠ [] := by
      intro he
      rw [he] at hlen
      simp at hlen
    rw [hmain t1 h1, hmain t2 h2, hlen]
    push_cast
    unfold header_height bar_height bar_spacing padding
    ring
  · intro t3 t6 h3 h6
    have h3ne : t3 ≠ [] := by
      intro he
      rw [he] at h3
      simp at h3
    have h6ne : t6 ≠ [] := by
      intro he
      rw [he] at h6
      simp at h6
    rw [hmain t3 h3ne, hmain t6 h6ne, h3, h6]
    unfold header_height bar_height bar_spacing padding
    norm_num

/-- C7 witness: the affine height law instantiated on a concrete
one-entry ranked list. -/
theorem svg_height_affine_witness :
    ([(("A" : String), (1 : Nat), (100 : ℚ))] ≠ []) ∧
      (generate_svg [(("A" : String), (1 : Nat), (100 : ℚ))]).height =
        header_height +
          (([(("A" : String), (1 : Nat), (100 : ℚ))].length : Int) *
              (bar_height + bar_spacing) - bar_spacing) +
          padding * 2 :=
  ⟨List.cons_ne_nil _ _,
   svg_height_affine.1 [(("A" : String), (1 : Nat), (100 : ℚ))]
     (List.cons_ne_nil _ _)⟩

/-- C10: every ranked entry's percentage lies in [0, 100], and every
rendered row whose percentage lies in [0, 100] has its filled rectangle
no wider than its track rectangle. -/
theorem fill_width_le_track_width :
    (∀ (m : List (String × Nat)) (N : Nat) (t : String × Nat × ℚ),
        t ∈ get_top_languages m N → 0 ≤ t.2.2 ∧ t.2.2 ≤ 100) ∧
      (∀ (top : List (String × Nat × ℚ)) (row : BarRow),
        row ∈ (generate_svg top).rows → 0 ≤ row.percentage →
        row.percentage ≤ 100 →
        row.filled_width ≤ (row.track_width : ℚ)) := by
  constructor
  · intro m N t ht
    unfold get_top_languages at ht
    by_cases h1 : m.isEmpty
    · simp [h1] at ht
    · by_cases h2 : total_bytes m = 0
      · simp [h1, h2] at ht
      · simp only [h1, h2, Bool.false_eq_true, if_false] at ht
        obtain ⟨p, hp, rfl⟩ := List.mem_map.mp ht
        have hpm : p ∈ m :=
          (sortDesc_perm m).subset (List.mem_of_mem_take hp)
        have hble : p.2 ≤ total_bytes m := by
          unfold total_bytes
          exact List.single_le_sum (fun x _ => Nat.zero_le x) p.2
            (List.mem_map_of_mem Prod.snd hpm)
        have hTpos : (0 : ℚ) < (total_bytes m : ℚ) := by
          exact_mod_cast Nat.pos_of_ne_zero h2
        constructor
        · show 0 ≤ pct p.2 (total_bytes m)
          unfold pct
          positivity
        · show pct p.2 (total_bytes m) ≤ 100
          unfold pct
          have hdiv : (p.2 : ℚ) / (total_bytes m : ℚ) ≤ 1 :=
            (div_le_one hTpos).mpr (by exact_mod_cast hble)
          calc (p.2 : ℚ) / (total_bytes m : ℚ) * 100
              ≤ 1 * 100 := by
                exact mul_le_mul_of_nonneg_right hdiv (by norm_num)
            _ = 100 := by norm_num
  · intro top row hrow h0 h100
    have hmem : row.track_width = bar_width ∧
        row.filled_width = fill_width row.percentage := by
      cases htop : top.isEmpty
      case true =>
        simp [generate_svg, htop, SvgOutput.rows] at hrow
      case false =>
        simp only [generate_svg, htop, Bool.false_eq_true, if_false,
          SvgOutput.rows] at hrow
        exact ⟨(buildRows_mem top _ row hrow).2.2.1,
          (buildRows_mem top _ row hrow).2.2.2⟩
    obtain ⟨htw, hfw⟩ := hmem
    rw [htw, hfw]
    unfold fill_width
    have hbw : ((bar_width : Int) : ℚ) = 220 := by
      norm_num [bar_width, svg_width, bar_x, padding]
    rw [hbw]
    have hdiv : row.percentage / 100 ≤ 1 := (div_le_one (by norm_num)).mpr h100
    calc row.percentage / 100 * 220 ≤ 1 * 220 :=
          mul_le_mul_of_nonneg_right hdiv (by norm_num)
      _ = 220 := by norm_num

/-- C10 witness: the percentage bounds instantiated on a concrete
one-language map. -/
theorem fill_width_le_track_width_witness :
    (("A", 5, pct 5 5) ∈ get_top_languages [("A", 5)] 6) ∧
      0 ≤ pct 5 5 ∧ pct 5 5 ≤ 100 := by
  have hmem : ("A", 5, pct 5 5) ∈ get_top_languages [("A", 5)] 6 := by
    show ("A", 5, pct 5 5) ∈ [("A", 5, pct 5 5)]
    exact List.mem_cons_self _ _
  exact ⟨hmem, fill_width_le_track_width.1 [("A", 5)] 6 ("A", 5, pct 5 5) hmem⟩

end LangStats
